import Mathlib

/-!
Verification of the columnar excitatory/inhibitory network
(`columnarEInetwork.py`): a shallow embedding of its configuration record,
connectivity tables, threshold forward pass (sparse index form and dense
boolean-mask form) and the online structural training procedure, together
with proofs of the specified correctness properties.

Conventions of the embedding:
* tensors indexed by (Column, Type, Branch, Segment) become curried
  functions `Nat → Nat → Nat → Nat → _`;
* a previous-layer activation vector is a `List Bool` (the code flattens
  activations row-major with `view`, so a (C, T, Br) activation grid
  becomes the list of length C*T*Br with cell (c, t, b) at
  position (c*T + t)*Br + b);
* the Python `random.Random` generator is abstracted as an oracle
  `rng : Nat → Nat` consumed at increasing positions: `randrange(n)` at
  position k yields `rng k % n`, and `rng.sample(tiled, trainI)` yields
  `trainI` elements of `tiled` selected at oracle-chosen positions.  All
  theorems quantify over the oracle, so they cover every realisable
  random behaviour;
* fallible tensor operations (shape-mismatched `copy_`, out-of-range
  advanced indexing) return `Option`, with `none` for the `RuntimeError` /
  `IndexError` that torch raises.
-/

namespace ColumnarEI

/-- Configuration record, translated from `ColumnarNetworkConfig`
(columnarEInetwork.py lines 64-98).  All count/threshold fields are
machine integers that are non-negative in every intended use, embedded
as `Nat`; `trainI` is `Optional[int]`. -/
structure ColumnarNetworkConfig where
  num_layers : Nat
  num_columns : Nat
  num_types : Nat
  num_branches : Nat
  num_segments : Nat
  num_synapses : Nat
  input_size : Nat
  seg_threshold : Nat
  branch_threshold : Nat
  trainN : Nat := 1
  trainB : Nat := 1
  trainS : Nat := 1
  trainI : Option Nat := none
  use_sparse_matrix : Bool := true
  seed : Nat := 0

/-- Value of `cfg.trainI` after `__post_init__` has replaced `None` by
`num_synapses` (lines 96-97). -/
def resolvedTrainI (cfg : ColumnarNetworkConfig) : Nat :=
  cfg.trainI.getD cfg.num_synapses

/-- Whether construction of the configuration succeeds.  Translated from
`ColumnarNetworkConfig.__post_init__` (lines 93-98): the only validation
performed is the assertion `trainI <= num_synapses`. -/
def postInitOk (cfg : ColumnarNetworkConfig) : Bool :=
  decide (resolvedTrainI cfg ≤ cfg.num_synapses)

/-- One (Column, Type, Branch, Segment) cell of a connectivity table:
either a fixed-length list of previous-layer indices with sentinel `-1`
(sparse form, lines 117-120) or a boolean mask over the previous layer
(dense form, lines 121-124). -/
inductive Cell where
  | sparse (idxs : List Int)
  | dense (mask : List Bool)
deriving DecidableEq

/-- A connectivity table for one layer boundary, indexed by
(Column, Type, Branch, Segment). -/
abbrev Table := Nat → Nat → Nat → Nat → Cell

/-- The trained/untrained flag table for one layer boundary
(lines 126-128). -/
abbrev FlagTable := Nat → Nat → Nat → Nat → Bool

/-- Previous size computed for layer boundary l in
`ColumnarNetwork.__init__` (line 115): `input_size` for layer 1,
`num_columns * num_types` for every later layer. -/
def prevSizeCode (cfg : ColumnarNetworkConfig) (l : Nat) : Nat :=
  if l = 1 then cfg.input_size else cfg.num_columns * cfg.num_types

/-- Fresh cell allocated by `__init__` (lines 117-124): all-sentinel
index list in sparse form, all-false mask of length `prevSize` in dense
form. -/
def initCell (cfg : ColumnarNetworkConfig) (prevSize : Nat) : Cell :=
  if cfg.use_sparse_matrix then Cell.sparse (List.replicate cfg.num_synapses (-1))
  else Cell.dense (List.replicate prevSize false)

/-- The list `connection_matrices` built by `__init__` (lines 114-124):
one table per layer boundary l = 1 .. num_layers-1, all cells fresh. -/
def initTables (cfg : ColumnarNetworkConfig) : List Table :=
  (List.range (cfg.num_layers - 1)).map
    (fun j => fun _ _ _ _ => initCell cfg (prevSizeCode cfg (j + 1)))

/-- Connectivity tables of a fresh network, as a function of the layer
boundary index j (table j serves boundary l = j+1). -/
def initConns (cfg : ColumnarNetworkConfig) : Nat → Table :=
  fun j => fun _ _ _ _ => initCell cfg (prevSizeCode cfg (j + 1))

/-- Flag tables of a fresh network: all segments untrained (line 127). -/
def initFlags : Nat → FlagTable := fun _ _ _ _ _ => false

/-- Contribution of one sparse synapse slot, translated from the gather
in `_forward_sparse` (lines 166-168): `where(idx >= 0, prev[idx.clamp(0)], 0)`.
A sentinel (negative) slot contributes nothing. -/
def gatherBit (prev : List Bool) (i : Int) : Bool :=
  if 0 ≤ i then prev.getD i.toNat false else false

/-- Number of active wired synapses of one cell, for either storage form:
the sparse sum of gathered bits (lines 166-170) or the dense
`(conn & prev).sum(-1)` popcount (lines 149-150). -/
def cellGatherCount (prev : List Bool) : Cell → Nat
  | Cell.sparse idxs => idxs.countP (fun i => gatherBit prev i)
  | Cell.dense mask => (List.zipWith (fun a b => a && b) mask prev).countP id

/-- Segment activation: the gathered count reaches `seg_threshold`
(lines 151 and 170-171). -/
def segOn (cfg : ColumnarNetworkConfig) (prev : List Bool) (cell : Cell) : Bool :=
  decide (cfg.seg_threshold ≤ cellGatherCount prev cell)

/-- Branch activation: the number of active segments in the branch
reaches `branch_threshold` (lines 152-153 and 172-173). -/
def branchOn (cfg : ColumnarNetworkConfig) (prev : List Bool) (tab : Table)
    (c t b : Nat) : Bool :=
  decide (cfg.branch_threshold ≤
    (List.range cfg.num_segments).countP (fun s => segOn cfg prev (tab c t b s)))

/-- Layer output: the (Column, Type, Branch) branch-activation tensor of
shape (C, T, Br) produced by `_forward_dense` / `_forward_sparse`,
flattened row-major as `view` does in `_forward_sparse` (line 162). -/
def layerActs (cfg : ColumnarNetworkConfig) (prev : List Bool) (tab : Table) :
    List Bool :=
  (List.range (cfg.num_columns * cfg.num_types * cfg.num_branches)).map
    (fun j => branchOn cfg prev tab
      (j / (cfg.num_types * cfg.num_branches))
      (j / cfg.num_branches % cfg.num_types)
      (j % cfg.num_branches))

/-- Activation trace of `ColumnarNetwork.forward` (lines 131-143) from
layer boundary `l` for `steps` more layers: the trace starts with the
current activation and appends each layer's branch activation. -/
def forwardFrom (cfg : ColumnarNetworkConfig) (conns : Nat → Table) :
    Nat → Nat → List Bool → List (List Bool)
  | _, 0, act => [act]
  | l, steps + 1, act =>
      act :: forwardFrom cfg conns (l + 1) steps (layerActs cfg act (conns l))

/-- Full activation trace of one forward pass: `trace[0]` is the binary
input, `trace[i]` the flattened branch activation of layer i. -/
def forwardTrace (cfg : ColumnarNetworkConfig) (conns : Nat → Table)
    (x : List Bool) : List (List Bool) :=
  forwardFrom cfg conns 0 (cfg.num_layers - 1) x

/-- Indices of active previous-layer units, in ascending order:
`prev_act.nonzero()` for a flat vector, and the row-major
`flat = c * T_prev + t` loop for a grid (train_sample lines 210-226);
both orders coincide on the flattened vector. -/
def activePool (v : List Bool) : List Nat :=
  (List.range v.length).filter (fun j => v.getD j false)

/-- Indices of inactive previous-layer units, in ascending order
(train_sample lines 212 and 221-225). -/
def inactivePool (v : List Bool) : List Nat :=
  (List.range v.length).filter (fun j => !v.getD j false)

/-- Fallback pool for inhibitory wiring when `idx_inactive` is empty:
`[i for i in range(total_prev) if i not in idx_active]` (line 240). -/
def fallbackPool (total : Nat) (act : List Nat) : List Nat :=
  (List.range total).filter (fun i => !act.contains i)

/-- The tiled candidate list `pool * ((trainI // len(pool)) + 1)`
(line 243). -/
def tile (pool : List Nat) (n : Nat) : List Nat :=
  (List.replicate n pool).flatten

/-- Abstraction of `rng.sample(tiled, trainI)` (line 243): `trainI`
elements of the tiled pool at oracle-chosen positions, reading the
oracle at positions k, k+1, ... -/
def sampleChosen (rng : Nat → Nat) (k trainI : Nat) (tiled : List Nat) :
    List Nat :=
  (List.range trainI).map (fun j => tiled.getD (rng (k + j) % tiled.length) 0)

/-- Point update of a flag table (`trained_flag[col, typ, b, s] = True`,
line 194). -/
def setFlag (f : FlagTable) (c t b s : Nat) : FlagTable :=
  fun c' t' b' s' =>
    if c' = c ∧ t' = t ∧ b' = b ∧ s' = s then true else f c' t' b' s'

/-- Point update of a connectivity table at one cell. -/
def setCell (tab : Table) (c t b s : Nat) (cell : Cell) : Table :=
  fun c' t' b' s' =>
    if c' = c ∧ t' = t ∧ b' = b ∧ s' = s then cell else tab c' t' b' s'

/-- Point update of a layer-indexed family. -/
def updateAt {α : Type} (j : Nat) (v : α) (f : Nat → α) : Nat → α :=
  fun j' => if j' = j then v else f j'

/-- Torch 1-d slice assignment `dst[:] = src` (line 248): `copy_` with
broadcasting.  It succeeds when the source has the destination's length
(plain copy) or length one (the value is broadcast to every slot);
any other length raises a RuntimeError, modelled as `none`. -/
def torchCopy1d (dst src : List Int) : Option (List Int) :=
  if src.length = dst.length then some src
  else
    match src with
    | [v] => some (List.replicate dst.length v)
    | _ => none

/-- Torch boolean index-fill `seg.zero_(); seg[chosen] = True`
(lines 251-252): the mask is cleared and set true at exactly the chosen
index set.  An out-of-range index raises an IndexError, modelled as
`none`. -/
def torchIndexFill (mask : List Bool) (chosen : List Nat) : Option (List Bool) :=
  if chosen.all (fun j => decide (j < mask.length)) then
    some (chosen.foldl (fun m j => m.set j true) (List.replicate mask.length false))
  else none

/-- The connectivity write of one wiring step (lines 245-252).  The
source branches on `cfg.use_sparse_matrix`; every table allocated by
`__init__` holds cells of the form matching that flag, so the branch is
equivalently taken on the stored cell variant. -/
def wireWrite (chosen : List Nat) : Cell → Option Cell
  | Cell.sparse idxs =>
      (torchCopy1d idxs (chosen.map Int.ofNat)).map Cell.sparse
  | Cell.dense mask => (torchIndexFill mask chosen).map Cell.dense

/-- One bounded rejection-sampling loop of
`ColumnarTrainer._untrained_segment` (lines 187-197), recursing on the
remaining attempt budget.  Returns the selected (branch, segment) with
the updated flag table and oracle position, or `none` with the flags
unchanged once the budget is exhausted. -/
def untrainedSegmentAux (cfg : ColumnarNetworkConfig) (rng : Nat → Nat)
    (flags : FlagTable) (col typ : Nat) :
    Nat → Nat → Option (Nat × Nat) × FlagTable × Nat
  | 0, k => (none, flags, k)
  | fuel + 1, k =>
      let b := rng k % cfg.num_branches
      let s := rng (k + 1) % cfg.num_segments
      if flags col typ b s then
        untrainedSegmentAux cfg rng flags col typ fuel (k + 2)
      else
        (some (b, s), setFlag flags col typ b s, k + 2)

/-- `_untrained_segment` with its fixed budget of 1000 attempts
(line 190). -/
def untrainedSegment (cfg : ColumnarNetworkConfig) (rng : Nat → Nat)
    (flags : FlagTable) (col typ k : Nat) :
    Option (Nat × Nat) × FlagTable × Nat :=
  untrainedSegmentAux cfg rng flags col typ 1000 k

/-- Mutable network state owned by the trainer: connectivity tables and
trained-segment flags, indexed by layer boundary. -/
structure NetState where
  conns : Nat → Table
  flags : Nat → FlagTable

/-- Fresh network state allocated by `ColumnarNetwork.__init__`. -/
def initState (cfg : ColumnarNetworkConfig) : NetState :=
  { conns := initConns cfg, flags := initFlags }

/-- Run an `Option`-valued step `n` times, aborting on the first
failure: the innermost `for _ in range(n)` loops of `train_sample`. -/
def optIterate {σ : Type} (f : σ → Option σ) : Nat → σ → Option σ
  | 0, s => some s
  | n + 1, s =>
      match f s with
      | none => none
      | some s' => optIterate f n s'

/-- Fold an `Option`-valued step over a list, aborting on the first
failure: the `for typ in ...` and `for l in ...` loops of
`train_sample`. -/
def optFold {α σ : Type} (f : α → σ → Option σ) : List α → σ → Option σ
  | [], s => some s
  | a :: as, s =>
      match f a s with
      | none => none
      | some s' => optFold f as s'

/-- One wiring step of `train_sample` (lines 233-252): select an
untrained segment for (col, typ); if one is found, pick the source pool
for the type (active units for excitatory, inactive units — with the
`or`-fallback — for inhibitory), skip if the pool is empty, otherwise
sample `trainI` candidates from the tiled pool and write them into the
selected cell of table l-1. -/
def wireStep (cfg : ColumnarNetworkConfig) (rng : Nat → Nat) (col l : Nat)
    (actP inactP : List Nat) (total typ : Nat) :
    NetState × Nat → Option (NetState × Nat) := fun sk =>
  let st := sk.1
  let k := sk.2
  let r := untrainedSegment cfg rng (st.flags (l - 1)) col typ k
  let st' : NetState := { st with flags := updateAt (l - 1) r.2.1 st.flags }
  let k' := r.2.2
  match r.1 with
  | none => some (st', k')
  | some (b, s) =>
      let pool := if typ = 0 then actP
        else if inactP.isEmpty then fallbackPool total actP else inactP
      if pool.isEmpty then some (st', k')
      else
        let trainI := resolvedTrainI cfg
        let tiled := tile pool (trainI / pool.length + 1)
        let chosen := sampleChosen rng k' trainI tiled
        match wireWrite chosen (st'.conns (l - 1) col typ b s) with
        | none => none
        | some cell =>
            some ({ st' with
                conns := updateAt (l - 1)
                  (setCell (st'.conns (l - 1)) col typ b s cell) st'.conns },
              k' + trainI)

/-- Training work of one layer boundary l (lines 206-252): build the
active/inactive pools from the trace entry for layer l-1, then for each
type run the trainN*trainB*trainS nested wiring loops. -/
def layerTrain (cfg : ColumnarNetworkConfig) (rng : Nat → Nat) (col : Nat)
    (trace : List (List Bool)) (l : Nat) (sk : NetState × Nat) :
    Option (NetState × Nat) :=
  let prev := trace.getD (l - 1) []
  let actP := activePool prev
  let inactP := inactivePool prev
  let total := prev.length
  optFold
    (fun typ =>
      optIterate
        (optIterate
          (optIterate (wireStep cfg rng col l actP inactP total typ)
            cfg.trainS)
          cfg.trainB)
        cfg.trainN)
    (List.range cfg.num_types) sk

/-- `ColumnarTrainer.train_sample` (lines 200-252): one forward pass on
the current connectivity yields the activation trace, then each layer
boundary l = 1 .. num_layers-1 is trained in ascending order.  Returns
`none` when a torch write raises. -/
def trainSample (cfg : ColumnarNetworkConfig) (rng : Nat → Nat)
    (st : NetState) (x : List Bool) (col : Nat) : Option NetState :=
  let trace := forwardTrace cfg st.conns x
  match optFold (layerTrain cfg rng col trace)
      ((List.range (cfg.num_layers - 1)).map (fun j => j + 1)) (st, 0) with
  | none => none
  | some sk => some sk.1

/-- Length of the flattened previous-layer activation actually consumed
at layer boundary l: the input size for l = 1, and C*T*Br (the flattened
(Column, Type, Branch) activation of the preceding layer) for l ≥ 2. -/
def prevFlatLen (cfg : ColumnarNetworkConfig) (l : Nat) : Nat :=
  if l = 1 then cfg.input_size
  else cfg.num_columns * cfg.num_types * cfg.num_branches

/-- Valid (non-sentinel) previous-layer indices stored in a sparse cell,
as natural numbers. -/
def validIdxs (idxs : List Int) : List Nat :=
  (idxs.filter (fun i => decide (0 ≤ i))).map Int.toNat

/-- Count demanded by the specification for a sparse segment: the number
of non-sentinel synapse slots whose referenced previous-layer unit is
active. -/
def specSegCountSparse (prev : List Bool) (idxs : List Int) : Nat :=
  idxs.countP (fun i => decide (i ≠ -1) && prev.getD i.toNat false)

/-- Count demanded by the specification for a dense segment: the number
of previous-layer units that are both connected and active. -/
def specSegCountDense (prev mask : List Bool) : Nat :=
  (List.range prev.length).countP (fun j => mask.getD j false && prev.getD j false)

lemma countP_zipWith_and (m v : List Bool) :
    (List.zipWith (fun a b => a && b) m v).countP id =
    (List.range (min m.length v.length)).countP
      (fun j => m.getD j false && v.getD j false) := by
  induction m generalizing v with
  | nil => simp
  | cons a m ih =>
      cases v with
      | nil => simp
      | cons b v =>
          have hmin : (a :: m).length ⊓ (b :: v).length = m.length ⊓ v.length + 1 := by
            simp only [List.length_cons]
            omega
          rw [List.zipWith_cons_cons, List.countP_cons, hmin,
            List.range_succ_eq_map, List.countP_cons, List.countP_map, ih]
          simp [Function.comp_def, Nat.add_comm]

lemma countP_indicator (N : Nat) (p : Nat → Bool) (l : List Nat)
    (hnd : l.Nodup) (hsub : ∀ x ∈ l, x < N) :
    (List.range N).countP (fun j => decide (j ∈ l) && p j) = l.countP p := by
  have hnd1 : ((List.range N).filter (fun j => decide (j ∈ l) && p j)).Nodup :=
    (List.nodup_range N).filter _
  have hnd2 : (l.filter p).Nodup := hnd.filter _
  have h1 : ((List.range N).filter (fun j => decide (j ∈ l) && p j)).toFinset
      = (l.filter p).toFinset := by
    ext j
    simp only [List.mem_toFinset, List.mem_filter, List.mem_range,
      Bool.and_eq_true, decide_eq_true_eq]
    constructor
    · rintro ⟨_, hj, hp⟩
      exact ⟨hj, hp⟩
    · rintro ⟨hj, hp⟩
      exact ⟨hsub j hj, hj, hp⟩
  rw [List.countP_eq_length_filter, List.countP_eq_length_filter,
    ← List.toFinset_card_of_nodup hnd1, ← List.toFinset_card_of_nodup hnd2, h1]

/-- C2: for every layer, every (Column, Type, Branch, Segment) cell and
every binary previous-layer activation vector, segment activation is 1
exactly when the count of synapses whose referenced previous-layer unit
is active reaches `seg_threshold` (sentinel slots contributing nothing,
in both the sparse and the dense form), and branch activation is 1
exactly when the count of active segments in the branch reaches
`branch_threshold`. -/
theorem c2_segment_branch_thresholds (cfg : ColumnarNetworkConfig)
    (prev : List Bool) (idxs : List Int) (mask : List Bool)
    (hwf : ∀ i ∈ idxs, i = -1 ∨ (0 ≤ i ∧ i.toNat < prev.length))
    (hlen : mask.length = prev.length) :
    (segOn cfg prev (Cell.sparse idxs) = true ↔
      cfg.seg_threshold ≤ specSegCountSparse prev idxs)
    ∧ (segOn cfg prev (Cell.dense mask) = true ↔
      cfg.seg_threshold ≤ specSegCountDense prev mask)
    ∧ (∀ tab : Table, ∀ c t b,
        branchOn cfg prev tab c t b = true ↔
          cfg.branch_threshold ≤
            ((List.range cfg.num_segments).filter
              (fun s => segOn cfg prev (tab c t b s))).length) := by
  refine ⟨?_, ?_, ?_⟩
  · have hcount : idxs.countP (fun i => gatherBit prev i)
        = specSegCountSparse prev idxs := by
      refine List.countP_congr (fun i hi => ?_)
      rcases hwf i hi with h | h
      · subst h
        simp [gatherBit]
      · have hne : i ≠ -1 := by omega
        simp [gatherBit, h.1, hne]
    simp only [segOn, cellGatherCount, hcount, decide_eq_true_eq]
  · have hcount : cellGatherCount prev (Cell.dense mask)
        = specSegCountDense prev mask := by
      simp only [cellGatherCount, specSegCountDense, countP_zipWith_and, hlen,
        Nat.min_self]
    simp only [segOn, hcount, decide_eq_true_eq]
  · intro tab c t b
    simp only [branchOn, List.countP_eq_length_filter, decide_eq_true_eq]

/-- Small concrete configuration used by several witnesses. -/
def cfgA : ColumnarNetworkConfig :=
  { num_layers := 2, num_columns := 1, num_types := 1, num_branches := 1,
    num_segments := 1, num_synapses := 2, input_size := 2,
    seg_threshold := 1, branch_threshold := 1 }

/-- C2 witness: the characterisation at a concrete cell and input. -/
theorem c2_segment_branch_thresholds_witness :
    segOn cfgA [true, false] (Cell.sparse [0, -1]) = true ↔
      1 ≤ specSegCountSparse [true, false] [0, -1] := by
  exact (c2_segment_branch_thresholds cfgA [true, false] [0, -1] [true, true]
    (by decide) (by decide)).1

lemma sparse_count_validIdxs (prev : List Bool) (idxs : List Int) :
    cellGatherCount prev (Cell.sparse idxs) =
      (validIdxs idxs).countP (fun v => prev.getD v false) := by
  simp only [cellGatherCount, validIdxs, List.countP_map, List.countP_filter]
  refine List.countP_congr (fun i _ => ?_)
  by_cases h : 0 ≤ i
  · simp [gatherBit, h, Function.comp_def]
  · simp [gatherBit, h, Function.comp_def]

lemma dense_count_indicator (prev mask : List Bool) (vals : List Nat)
    (hnd : vals.Nodup) (hrange : ∀ v ∈ vals, v < prev.length)
    (hlen : mask.length = prev.length)
    (hind : ∀ j, j < prev.length → mask.getD j false = decide (j ∈ vals)) :
    cellGatherCount prev (Cell.dense mask) =
      vals.countP (fun v => prev.getD v false) := by
  have h1 : cellGatherCount prev (Cell.dense mask) =
      (List.range prev.length).countP
        (fun j => mask.getD j false && prev.getD j false) := by
    simp only [cellGatherCount, countP_zipWith_and, hlen, Nat.min_self]
  rw [h1]
  have h2 : (List.range prev.length).countP
      (fun j => mask.getD j false && prev.getD j false) =
      (List.range prev.length).countP
        (fun j => decide (j ∈ vals) && prev.getD j false) := by
    refine List.countP_congr (fun j hj => ?_)
    rw [List.mem_range] at hj
    rw [hind j hj]
  rw [h2, countP_indicator _ _ _ hnd hrange]

/-- C1: for any connectivity content without duplicate sparse indices,
if every dense mask is the indicator of the set of valid sparse indices
of the corresponding (Column, Type, Branch, Segment) cell, then the
sparse and the dense forward pass yield identical segment activations
and identical branch activations on every binary input vector. -/
theorem c1_representation_equivalence (cfg : ColumnarNetworkConfig)
    (prev : List Bool)
    (ST : Nat → Nat → Nat → Nat → List Int)
    (DT : Nat → Nat → Nat → Nat → List Bool)
    (hnd : ∀ c t b s, (validIdxs (ST c t b s)).Nodup)
    (hrange : ∀ c t b s, ∀ v ∈ validIdxs (ST c t b s), v < prev.length)
    (hlen : ∀ c t b s, (DT c t b s).length = prev.length)
    (hind : ∀ c t b s j, j < prev.length →
      (DT c t b s).getD j false = decide (j ∈ validIdxs (ST c t b s))) :
    (∀ c t b s, segOn cfg prev (Cell.dense (DT c t b s)) =
      segOn cfg prev (Cell.sparse (ST c t b s)))
    ∧ (∀ c t b,
        branchOn cfg prev (fun c' t' b' s' => Cell.dense (DT c' t' b' s')) c t b =
        branchOn cfg prev (fun c' t' b' s' => Cell.sparse (ST c' t' b' s')) c t b) := by
  have hseg : ∀ c t b s, segOn cfg prev (Cell.dense (DT c t b s)) =
      segOn cfg prev (Cell.sparse (ST c t b s)) := by
    intro c t b s
    simp only [segOn]
    rw [dense_count_indicator prev (DT c t b s) (validIdxs (ST c t b s))
        (hnd c t b s) (hrange c t b s) (hlen c t b s) (hind c t b s),
      ← sparse_count_validIdxs]
  refine ⟨hseg, fun c t b => ?_⟩
  simp only [branchOn]
  have hc : (List.range cfg.num_segments).countP
      (fun s => segOn cfg prev (Cell.dense (DT c t b s))) =
      (List.range cfg.num_segments).countP
        (fun s => segOn cfg prev (Cell.sparse (ST c t b s))) :=
    List.countP_congr (fun s _ => by rw [hseg c t b s])
  rw [hc]

/-- C1 witness: the equivalence at a concrete cell pair and input. -/
theorem c1_representation_equivalence_witness :
    segOn cfgA [true, false] (Cell.dense [true, false]) =
      segOn cfgA [true, false] (Cell.sparse [0, -1]) := by
  refine (c1_representation_equivalence cfgA [true, false]
    (fun _ _ _ _ => [0, -1]) (fun _ _ _ _ => [true, false])
    ?_ ?_ ?_ ?_).1 0 0 0 0
  · intro c t b s
    show (validIdxs ([0, -1] : List Int)).Nodup
    decide
  · intro c t b s
    show ∀ v ∈ validIdxs ([0, -1] : List Int), v < ([true, false] : List Bool).length
    decide
  · intro c t b s
    rfl
  · intro c t b s j hj
    have hj2 : j < 2 := by simpa using hj
    show ([true, false] : List Bool).getD j false =
      decide (j ∈ validIdxs ([0, -1] : List Int))
    interval_cases j <;> decide

/-- C7: raising `seg_threshold` with the wiring, the input and every
other parameter fixed never activates a segment that was inactive, and
consequently never activates a branch that was inactive; raising
`branch_threshold` with the segment activations fixed never activates a
branch that was inactive. -/
theorem c7_threshold_monotone (cfg : ColumnarNetworkConfig) (t' bt' : Nat)
    (prev : List Bool) (tab : Table) (cell : Cell)
    (hseg : cfg.seg_threshold ≤ t') (hbr : cfg.branch_threshold ≤ bt') :
    (segOn { cfg with seg_threshold := t' } prev cell = true →
      segOn cfg prev cell = true)
    ∧ (∀ c t b,
        branchOn { cfg with seg_threshold := t' } prev tab c t b = true →
          branchOn cfg prev tab c t b = true)
    ∧ (∀ c t b,
        branchOn { cfg with branch_threshold := bt' } prev tab c t b = true →
          branchOn cfg prev tab c t b = true) := by
  have hs : ∀ c : Cell, segOn { cfg with seg_threshold := t' } prev c = true →
      segOn cfg prev c = true := by
    intro c h
    simp only [segOn, decide_eq_true_eq] at h ⊢
    omega
  refine ⟨hs cell, ?_, ?_⟩
  · intro c t b h
    simp only [branchOn, decide_eq_true_eq] at h ⊢
    calc cfg.branch_threshold
        ≤ (List.range cfg.num_segments).countP
            (fun s => segOn { cfg with seg_threshold := t' } prev (tab c t b s)) := h
      _ ≤ (List.range cfg.num_segments).countP
            (fun s => segOn cfg prev (tab c t b s)) :=
          List.countP_mono_left (fun s _ => hs (tab c t b s))
  · intro c t b h
    simp only [branchOn, decide_eq_true_eq] at h ⊢
    have hcount : (List.range cfg.num_segments).countP
        (fun s => segOn { cfg with branch_threshold := bt' } prev (tab c t b s))
        = (List.range cfg.num_segments).countP
            (fun s => segOn cfg prev (tab c t b s)) := rfl
    omega

/-- C7 witness: the monotonicity at a concrete configuration, wiring
and input. -/
theorem c7_threshold_monotone_witness :
    segOn cfgA [true, true] (Cell.sparse [0, 1]) = true := by
  exact (c7_threshold_monotone cfgA 2 1 [true, true]
    (fun _ _ _ _ => Cell.sparse [0, 1]) (Cell.sparse [0, 1])
    (by decide) (by decide)).1 (by decide)

/-- Configuration record with several fields outside their valid ranges:
fewer than 2 layers, no columns, no synapses, and a segment threshold
outside 1..num_synapses. -/
def badConfig : ColumnarNetworkConfig :=
  { num_layers := 0, num_columns := 0, num_types := 2, num_branches := 0,
    num_segments := 0, num_synapses := 0, input_size := 0,
    seg_threshold := 5, branch_threshold := 0 }

/-- C9 counterexample: a configuration with non-positive dimensions
(num_layers < 2, num_columns < 1, num_synapses < 1) and a segment
threshold outside 1..num_synapses nevertheless passes construction:
`__post_init__` accepts it, contradicting the claim that any such
violation is rejected at construction time. -/
theorem c9_counterexample :
    badConfig.num_layers < 2 ∧ badConfig.num_columns < 1 ∧
    badConfig.num_synapses < 1 ∧
    ¬(1 ≤ badConfig.seg_threshold ∧
        badConfig.seg_threshold ≤ badConfig.num_synapses) ∧
    postInitOk badConfig = true := by
  decide

/-- C9 (amended): construction of the configuration fails exactly when
the defaulted `trainI` exceeds `num_synapses`; that single assertion is
the only range validation performed at construction time, so all other
out-of-range threshold, count or size fields are accepted. -/
theorem c9_construction_check (cfg : ColumnarNetworkConfig) :
    postInitOk cfg = false ↔ cfg.num_synapses < resolvedTrainI cfg := by
  simp only [postInitOk, decide_eq_false_iff_not, Nat.not_le]

/-- All (branch, segment) cells of a (column, type) pair are already
trained. -/
def allTrained (cfg : ColumnarNetworkConfig) (flags : FlagTable)
    (col typ : Nat) : Prop :=
  ∀ b < cfg.num_branches, ∀ s < cfg.num_segments, flags col typ b s = true

lemma untrainedSegmentAux_pos_bound (cfg : ColumnarNetworkConfig)
    (rng : Nat → Nat) (flags : FlagTable) (col typ : Nat) :
    ∀ fuel k,
      (untrainedSegmentAux cfg rng flags col typ fuel k).2.2 ≤ k + 2 * fuel := by
  intro fuel
  induction fuel with
  | zero => intro k; simp [untrainedSegmentAux]
  | succ fuel ih =>
      intro k
      simp only [untrainedSegmentAux]
      split
      · have := ih (k + 2)
        omega
      · simp only []
        omega

lemma untrainedSegmentAux_exhausted (cfg : ColumnarNetworkConfig)
    (rng : Nat → Nat) (flags : FlagTable) (col typ : Nat)
    (hbr : 0 < cfg.num_branches) (hseg : 0 < cfg.num_segments)
    (hall : allTrained cfg flags col typ) :
    ∀ fuel k, (untrainedSegmentAux cfg rng flags col typ fuel k).1 = none := by
  intro fuel
  induction fuel with
  | zero => intro k; simp [untrainedSegmentAux]
  | succ fuel ih =>
      intro k
      have hb : rng k % cfg.num_branches < cfg.num_branches :=
        Nat.mod_lt _ hbr
      have hs : rng (k + 1) % cfg.num_segments < cfg.num_segments :=
        Nat.mod_lt _ hseg
      have hf := hall _ hb _ hs
      simp only [untrainedSegmentAux, hf, if_true]
      exact ih (k + 2)

/-- C8: `_untrained_segment` terminates within its fixed budget — it
consumes at most 1000 resampling attempts (two random draws each) — and
whenever every (branch, segment) cell of the given (column, type) is
already trained it returns the `none` outcome with the flag table
unchanged, rather than looping or raising. -/
theorem c8_exhaustion_terminates (cfg : ColumnarNetworkConfig)
    (rng : Nat → Nat) (flags : FlagTable) (col typ k : Nat)
    (hbr : 0 < cfg.num_branches) (hseg : 0 < cfg.num_segments) :
    (untrainedSegment cfg rng flags col typ k).2.2 ≤ k + 2 * 1000
    ∧ (allTrained cfg flags col typ →
        (untrainedSegment cfg rng flags col typ k).1 = none
        ∧ (untrainedSegment cfg rng flags col typ k).2.1 = flags) := by
  refine ⟨untrainedSegmentAux_pos_bound cfg rng flags col typ 1000 k, ?_⟩
  intro hall
  refine ⟨untrainedSegmentAux_exhausted cfg rng flags col typ hbr hseg hall 1000 k, ?_⟩
  have hflags : ∀ fuel k',
      (untrainedSegmentAux cfg rng flags col typ fuel k').2.1 = flags := by
    intro fuel
    induction fuel with
    | zero => intro k'; simp [untrainedSegmentAux]
    | succ fuel ih =>
        intro k'
        have hb : rng k' % cfg.num_branches < cfg.num_branches :=
          Nat.mod_lt _ hbr
        have hs : rng (k' + 1) % cfg.num_segments < cfg.num_segments :=
          Nat.mod_lt _ hseg
        simp only [untrainedSegmentAux, hall _ hb _ hs, if_true]
        exact ih (k' + 2)
  exact hflags 1000 k

/-- C8 witness: a fully trained 4-branch, 4-segment (column, type) pair
yields the `none` outcome. -/
theorem c8_exhaustion_terminates_witness :
    (untrainedSegment
        { num_layers := 2, num_columns := 2, num_types := 2,
          num_branches := 4, num_segments := 4, num_synapses := 2,
          input_size := 2, seg_threshold := 1, branch_threshold := 1 }
        (fun _ => 0) (fun _ _ _ _ => true) 0 0 0).1 = none := by
  exact ((c8_exhaustion_terminates _ (fun _ => 0) (fun _ _ _ _ => true) 0 0 0
    (by decide) (by decide)).2 (fun _ _ _ _ => rfl)).1

lemma untrainedSegmentAux_spec (cfg : ColumnarNetworkConfig)
    (rng : Nat → Nat) (flags : FlagTable) (col typ : Nat) :
    ∀ fuel k,
      ((untrainedSegmentAux cfg rng flags col typ fuel k).1 = none ∧
        (untrainedSegmentAux cfg rng flags col typ fuel k).2.1 = flags)
      ∨ (∃ b s, (untrainedSegmentAux cfg rng flags col typ fuel k).1 = some (b, s)
          ∧ flags col typ b s = false
          ∧ (untrainedSegmentAux cfg rng flags col typ fuel k).2.1
              = setFlag flags col typ b s) := by
  intro fuel
  induction fuel with
  | zero => intro k; left; simp [untrainedSegmentAux]
  | succ fuel ih =>
      intro k
      simp only [untrainedSegmentAux]
      by_cases h : flags col typ (rng k % cfg.num_branches)
          (rng (k + 1) % cfg.num_segments) = true
      · simp only [h, if_true]
        exact ih (k + 2)
      · simp only [h, if_false]
        right
        exact ⟨_, _, rfl, Bool.not_eq_true _ ▸ h, rfl⟩

lemma untrainedSegment_spec (cfg : ColumnarNetworkConfig)
    (rng : Nat → Nat) (flags : FlagTable) (col typ k : Nat) :
    ((untrainedSegment cfg rng flags col typ k).1 = none ∧
      (untrainedSegment cfg rng flags col typ k).2.1 = flags)
    ∨ (∃ b s, (untrainedSegment cfg rng flags col typ k).1 = some (b, s)
        ∧ flags col typ b s = false
        ∧ (untrainedSegment cfg rng flags col typ k).2.1
            = setFlag flags col typ b s) :=
  untrainedSegmentAux_spec cfg rng flags col typ 1000 k

lemma optIterate_pres {σ : Type} (P : σ → σ → Prop)
    (hrefl : ∀ s, P s s)
    (htrans : ∀ a b c, P a b → P b c → P a c)
    (f : σ → Option σ) (hf : ∀ s s', f s = some s' → P s s') :
    ∀ n s s', optIterate f n s = some s' → P s s' := by
  intro n
  induction n with
  | zero =>
      intro s s' h
      simp only [optIterate, Option.some.injEq] at h
      exact h ▸ hrefl s
  | succ n ih =>
      intro s s' h
      simp only [optIterate] at h
      cases h1 : f s with
      | none => rw [h1] at h; exact absurd h (by simp)
      | some s1 =>
          rw [h1] at h
          exact htrans _ _ _ (hf _ _ h1) (ih _ _ h)

lemma optFold_pres {α σ : Type} (P : σ → σ → Prop)
    (hrefl : ∀ s, P s s)
    (htrans : ∀ a b c, P a b → P b c → P a c)
    (f : α → σ → Option σ) :
    ∀ l : List α, (∀ a ∈ l, ∀ s s', f a s = some s' → P s s') →
      ∀ s s', optFold f l s = some s' → P s s' := by
  intro l
  induction l with
  | nil =>
      intro _ s s' h
      simp only [optFold, Option.some.injEq] at h
      exact h ▸ hrefl s
  | cons a as ih =>
      intro hl s s' h
      simp only [optFold] at h
      cases h1 : f a s with
      | none => rw [h1] at h; exact absurd h (by simp)
      | some s1 =>
          rw [h1] at h
          exact htrans _ _ _ (hl a (by simp) _ _ h1)
            (ih (fun a' ha' => hl a' (by simp [ha'])) _ _ h)

/-- Trained flags only ever grow: every flag true before is true
after. -/
def FlagLe (st st' : NetState) : Prop :=
  ∀ j c t b s, st.flags j c t b s = true → st'.flags j c t b s = true

/-- All connectivity and flag state outside column `col` agrees between
the two states. -/
def OffColEq (col : Nat) (st st' : NetState) : Prop :=
  ∀ j c, c ≠ col → ∀ t b s,
    st'.conns j c t b s = st.conns j c t b s ∧
    st'.flags j c t b s = st.flags j c t b s

lemma tile_succ (pool : List Nat) (n : Nat) :
    tile pool (n + 1) = pool ++ tile pool n := by
  simp [tile, List.replicate_succ]

lemma mem_tile {x : Nat} {pool : List Nat} {n : Nat} (h : x ∈ tile pool n) :
    x ∈ pool := by
  simp only [tile, List.mem_flatten, List.mem_replicate] at h
  obtain ⟨l', ⟨_, rfl⟩, hx⟩ := h
  exact hx

lemma sampleChosen_mem (rng : Nat → Nat) (k m : Nat) (tiled : List Nat)
    (h : tiled ≠ []) : ∀ x ∈ sampleChosen rng k m tiled, x ∈ tiled := by
  intro x hx
  simp only [sampleChosen, List.mem_map, List.mem_range] at hx
  obtain ⟨j, _, rfl⟩ := hx
  have hlt : rng (k + j) % tiled.length < tiled.length :=
    Nat.mod_lt _ (List.length_pos.2 h)
  rw [List.getD_eq_getElem?_getD, List.getElem?_eq_getElem hlt]
  exact List.getElem_mem hlt

lemma wireStep_cases (cfg : ColumnarNetworkConfig) (rng : Nat → Nat)
    (col l : Nat) (aP iP : List Nat) (tot typ : Nat)
    (sk sk' : NetState × Nat)
    (h : wireStep cfg rng col l aP iP tot typ sk = some sk') :
    sk'.1.flags = updateAt (l - 1)
        (untrainedSegment cfg rng (sk.1.flags (l - 1)) col typ sk.2).2.1 sk.1.flags
    ∧ (sk'.1.conns = sk.1.conns
      ∨ ∃ b s chosen cell,
          (untrainedSegment cfg rng (sk.1.flags (l - 1)) col typ sk.2).1 = some (b, s)
          ∧ (∃ pool : List Nat,
              (pool = aP ∨ pool = iP ∨ pool = fallbackPool tot aP)
              ∧ pool ≠ [] ∧ ∀ v ∈ chosen, v ∈ pool)
          ∧ wireWrite chosen (sk.1.conns (l - 1) col typ b s) = some cell
          ∧ sk'.1.conns = updateAt (l - 1)
              (setCell (sk.1.conns (l - 1)) col typ b s cell) sk.1.conns) := by
  unfold wireStep at h
  simp only [] at h
  cases hr : (untrainedSegment cfg rng (sk.1.flags (l - 1)) col typ sk.2).1 with
  | none =>
      rw [hr] at h
      simp only [Option.some.injEq] at h
      rw [← h]
      exact ⟨rfl, Or.inl rfl⟩
  | some bs =>
      obtain ⟨b, s⟩ := bs
      rw [hr] at h
      simp only [] at h
      by_cases hp : (if typ = 0 then aP
          else if iP.isEmpty = true then fallbackPool tot aP else iP).isEmpty = true
      · rw [if_pos hp] at h
        simp only [Option.some.injEq] at h
        rw [← h]
        exact ⟨rfl, Or.inl rfl⟩
      · rw [if_neg hp] at h
        have hpne : (if typ = 0 then aP
            else if iP.isEmpty = true then fallbackPool tot aP else iP) ≠ [] := by
          intro he
          rw [he] at hp
          exact hp rfl
        cases hw : wireWrite
            (sampleChosen rng (untrainedSegment cfg rng (sk.1.flags (l - 1)) col typ sk.2).2.2
              (resolvedTrainI cfg)
              (tile (if typ = 0 then aP else if iP.isEmpty = true then fallbackPool tot aP else iP)
                (resolvedTrainI cfg /
                    (if typ = 0 then aP
                      else if iP.isEmpty = true then fallbackPool tot aP else iP).length + 1)))
            (sk.1.conns (l - 1) col typ b s) with
        | none =>
            rw [hw] at h
            exact absurd h (by simp)
        | some cell =>
            rw [hw] at h
            simp only [Option.some.injEq] at h
            rw [← h]
            refine ⟨rfl, Or.inr ⟨b, s, _, cell, rfl, ?_, hw, rfl⟩⟩
            refine ⟨_, ?_, hpne, ?_⟩
            · by_cases h0 : typ = 0
              · rw [if_pos h0]
                exact Or.inl rfl
              · rw [if_neg h0]
                by_cases h1 : iP.isEmpty = true
                · rw [if_pos h1]
                  exact Or.inr (Or.inr rfl)
                · rw [if_neg h1]
                  exact Or.inr (Or.inl rfl)
            · intro v hv
              have htne : tile (if typ = 0 then aP
                  else if iP.isEmpty = true then fallbackPool tot aP else iP)
                  (resolvedTrainI cfg /
                    (if typ = 0 then aP
                      else if iP.isEmpty = true then fallbackPool tot aP else iP).length + 1) ≠ [] := by
                have : ([] : List Nat).length <
                    (tile (if typ = 0 then aP
                      else if iP.isEmpty = true then fallbackPool tot aP else iP)
                      (resolvedTrainI cfg /
                        (if typ = 0 then aP
                          else if iP.isEmpty = true then fallbackPool tot aP else iP).length + 1)).length := by
                  rw [tile_succ]
                  simp only [List.length_nil, List.length_append]
                  have := List.length_pos.2 hpne
                  omega
                intro he
                rw [he] at this
                exact Nat.lt_irrefl _ this
              exact mem_tile (sampleChosen_mem _ _ _ _ htne v hv)

lemma trainSample_pres (cfg : ColumnarNetworkConfig) (rng : Nat → Nat)
    (st : NetState) (x : List Bool) (col : Nat) (st' : NetState)
    (P : NetState → NetState → Prop)
    (hrefl : ∀ s, P s s)
    (htrans : ∀ a b c, P a b → P b c → P a c)
    (hstep : ∀ l, 1 ≤ l → l ≤ cfg.num_layers - 1 → ∀ typ sk sk',
      wireStep cfg rng col l
        (activePool ((forwardTrace cfg st.conns x).getD (l - 1) []))
        (inactivePool ((forwardTrace cfg st.conns x).getD (l - 1) []))
        ((forwardTrace cfg st.conns x).getD (l - 1) []).length typ sk = some sk' →
      P sk.1 sk'.1)
    (h : trainSample cfg rng st x col = some st') : P st st' := by
  unfold trainSample at h
  simp only [] at h
  cases hfold : optFold (layerTrain cfg rng col (forwardTrace cfg st.conns x))
      ((List.range (cfg.num_layers - 1)).map (fun j => j + 1)) (st, 0) with
  | none =>
      rw [hfold] at h
      exact absurd h (by simp)
  | some sk =>
      rw [hfold] at h
      simp only [Option.some.injEq] at h
      have hP : (fun (a b : NetState × Nat) => P a.1 b.1) (st, 0) sk := by
        refine optFold_pres (fun (a b : NetState × Nat) => P a.1 b.1)
          (fun s => hrefl s.1) (fun a b c hab hbc => htrans _ _ _ hab hbc)
          _ _ ?_ _ _ hfold
        intro l hlmem sk1 sk1' hl
        have hlb : 1 ≤ l ∧ l ≤ cfg.num_layers - 1 := by
          simp only [List.mem_map, List.mem_range] at hlmem
          obtain ⟨j, hj, rfl⟩ := hlmem
          omega
        unfold layerTrain at hl
        simp only [] at hl
        refine optFold_pres (fun (a b : NetState × Nat) => P a.1 b.1)
          (fun s => hrefl s.1) (fun a b c hab hbc => htrans _ _ _ hab hbc)
          _ _ ?_ _ _ hl
        intro typ _ sk2 sk2' ht
        refine optIterate_pres (fun (a b : NetState × Nat) => P a.1 b.1)
          (fun s => hrefl s.1) (fun a b c hab hbc => htrans _ _ _ hab hbc)
          _ ?_ _ _ _ ht
        intro sk3 sk3' hN
        refine optIterate_pres (fun (a b : NetState × Nat) => P a.1 b.1)
          (fun s => hrefl s.1) (fun a b c hab hbc => htrans _ _ _ hab hbc)
          _ ?_ _ _ _ hN
        intro sk4 sk4' hB
        refine optIterate_pres (fun (a b : NetState × Nat) => P a.1 b.1)
          (fun s => hrefl s.1) (fun a b c hab hbc => htrans _ _ _ hab hbc)
          _ ?_ _ _ _ hB
        intro sk5 sk5' hS
        exact hstep l hlb.1 hlb.2 typ sk5 sk5' hS
      rw [← h]
      exact hP

lemma wireStep_flagLe (cfg : ColumnarNetworkConfig) (rng : Nat → Nat)
    (col l : Nat) (aP iP : List Nat) (tot typ : Nat) (sk sk' : NetState × Nat)
    (h : wireStep cfg rng col l aP iP tot typ sk = some sk') :
    FlagLe sk.1 sk'.1 := by
  obtain ⟨hfl, _⟩ := wireStep_cases cfg rng col l aP iP tot typ sk sk' h
  intro j c t b s hjs
  rw [hfl]
  unfold updateAt
  by_cases hj : j = l - 1
  · rw [if_pos hj]
    rw [hj] at hjs
    rcases untrainedSegment_spec cfg rng (sk.1.flags (l - 1)) col typ sk.2 with
      ⟨_, hfeq⟩ | ⟨b', s', _, _, hfeq⟩
    · rw [hfeq]
      exact hjs
    · rw [hfeq]
      unfold setFlag
      split
      · rfl
      · exact hjs
  · rw [if_neg hj]
    exact hjs

lemma wireStep_offColEq (cfg : ColumnarNetworkConfig) (rng : Nat → Nat)
    (col l : Nat) (aP iP : List Nat) (tot typ : Nat) (sk sk' : NetState × Nat)
    (h : wireStep cfg rng col l aP iP tot typ sk = some sk') :
    OffColEq col sk.1 sk'.1 := by
  obtain ⟨hfl, hcn⟩ := wireStep_cases cfg rng col l aP iP tot typ sk sk' h
  intro j c hc t b s
  constructor
  · rcases hcn with hcn | ⟨b', s', chosen, cell, _, _, _, hcn⟩
    · rw [hcn]
    · rw [hcn]
      unfold updateAt
      by_cases hj : j = l - 1
      · rw [if_pos hj, hj]
        unfold setCell
        rw [if_neg (by intro hcon; exact hc hcon.1)]
      · rw [if_neg hj]
  · rw [hfl]
    unfold updateAt
    by_cases hj : j = l - 1
    · rw [if_pos hj, hj]
      rcases untrainedSegment_spec cfg rng (sk.1.flags (l - 1)) col typ sk.2 with
        ⟨_, hfeq⟩ | ⟨b', s', _, _, hfeq⟩
      · rw [hfeq]
      · rw [hfeq]
        unfold setFlag
        rw [if_neg (by intro hcon; exact hc hcon.1)]
    · rw [if_neg hj]

/-- C6: training on class label `col` never mutates any connectivity
cell or trained-flag cell of a column other than `col`, in any layer:
whenever `train_sample` completes, all connectivity and flag state
outside column `col` is unchanged. -/
theorem c6_column_isolation (cfg : ColumnarNetworkConfig) (rng : Nat → Nat)
    (st : NetState) (x : List Bool) (col : Nat) (st' : NetState)
    (h : trainSample cfg rng st x col = some st') :
    ∀ j c, c ≠ col → ∀ t b s,
      st'.conns j c t b s = st.conns j c t b s ∧
      st'.flags j c t b s = st.flags j c t b s := by
  refine trainSample_pres cfg rng st x col st' (OffColEq col) ?_ ?_ ?_ h
  · intro s j c _ t b s'
    exact ⟨rfl, rfl⟩
  · intro a b c hab hbc j c' hc t b' s'
    obtain ⟨h1, h2⟩ := hbc j c' hc t b' s'
    obtain ⟨h3, h4⟩ := hab j c' hc t b' s'
    exact ⟨h1.trans h3, h2.trans h4⟩
  · intro l _ _ typ sk sk' hs
    exact wireStep_offColEq cfg rng col l _ _ _ typ sk sk' hs

/-- Constant-zero random oracle used by concrete witnesses. -/
def rngZero : Nat → Nat := fun _ => 0

/-- C6 witness: a completed concrete training call on class label 0
leaves the flag state of column 1 untouched. -/
theorem c6_column_isolation_witness :
    (trainSample cfgA rngZero (initState cfgA) [true, true] 0).isSome = true ∧
    ((trainSample cfgA rngZero (initState cfgA) [true, true] 0).getD
        (initState cfgA)).flags 0 1 0 0 0 = (initState cfgA).flags 0 1 0 0 0 := by
  refine ⟨rfl, ?_⟩
  cases h : trainSample cfgA rngZero (initState cfgA) [true, true] 0 with
  | none => rfl
  | some st' =>
      simp only [Option.getD_some]
      exact (c6_column_isolation cfgA rngZero (initState cfgA) [true, true] 0 st'
        h 0 1 (by decide) 0 0 0).2

/-- C5: a segment returned by `_untrained_segment` was untrained at call
time and is marked trained in the returned flag table; a trained flag is
never reset, neither by `_untrained_segment` nor by a completed
`train_sample` call — so once set it remains true for the network's
lifetime, and a trained cell can never be selected again for its
(column, type). -/
theorem c5_write_once_segments (cfg : ColumnarNetworkConfig)
    (rng : Nat → Nat) (flags : FlagTable) (col typ k : Nat) :
    (∀ b s, (untrainedSegment cfg rng flags col typ k).1 = some (b, s) →
      flags col typ b s = false ∧
      (untrainedSegment cfg rng flags col typ k).2.1 col typ b s = true)
    ∧ (∀ c t b s, flags c t b s = true →
        (untrainedSegment cfg rng flags col typ k).2.1 c t b s = true)
    ∧ (∀ st x st', trainSample cfg rng st x col = some st' →
        ∀ j c t b s, st.flags j c t b s = true → st'.flags j c t b s = true) := by
  refine ⟨?_, ?_, ?_⟩
  · intro b s hbs
    rcases untrainedSegment_spec cfg rng flags col typ k with
      ⟨hnone, _⟩ | ⟨b', s', hsome, hfalse, hfeq⟩
    · rw [hnone] at hbs
      exact absurd hbs (by simp)
    · rw [hsome] at hbs
      simp only [Option.some.injEq, Prod.mk.injEq] at hbs
      obtain ⟨hb, hs⟩ := hbs
      rw [← hb, ← hs]
      refine ⟨hfalse, ?_⟩
      rw [hfeq]
      unfold setFlag
      rw [if_pos ⟨rfl, rfl, rfl, rfl⟩]
  · intro c t b s hcs
    rcases untrainedSegment_spec cfg rng flags col typ k with
      ⟨_, hfeq⟩ | ⟨b', s', _, _, hfeq⟩
    · rw [hfeq]
      exact hcs
    · rw [hfeq]
      unfold setFlag
      split
      · rfl
      · exact hcs
  · intro st x st' h j c t b s hjs
    refine trainSample_pres cfg rng st x col st' FlagLe ?_ ?_ ?_ h j c t b s hjs
    · intro s' j' c' t' b' s'' hx
      exact hx
    · intro a b' c' hab hbc j' c'' t' b'' s'' hx
      exact hbc _ _ _ _ _ (hab _ _ _ _ _ hx)
    · intro l _ _ typ' sk sk' hs'
      exact wireStep_flagLe cfg rng col l _ _ _ typ' sk sk' hs'

/-- C5 witness: at a concrete fresh flag table, the selected segment was
untrained and is marked trained. -/
theorem c5_write_once_segments_witness :
    (fun _ _ _ _ => false : FlagTable) 0 0 0 0 = false ∧
    (untrainedSegment cfgA rngZero (fun _ _ _ _ => false) 0 0 0).2.1 0 0 0 0
      = true := by
  exact (c5_write_once_segments cfgA rngZero (fun _ _ _ _ => false) 0 0 0).1
    0 0 rfl

lemma forwardFrom_length (cfg : ColumnarNetworkConfig) (conns : Nat → Table) :
    ∀ steps l act, (forwardFrom cfg conns l steps act).length = steps + 1 := by
  intro steps
  induction steps with
  | zero => intro l act; rfl
  | succ steps ih =>
      intro l act
      simp only [forwardFrom, List.length_cons, ih]

lemma forwardFrom_getD_zero (cfg : ColumnarNetworkConfig) (conns : Nat → Table)
    (steps l : Nat) (act : List Bool) :
    (forwardFrom cfg conns l steps act).getD 0 [] = act := by
  cases steps with
  | zero => rfl
  | succ steps => rfl

lemma forwardFrom_getD_succ (cfg : ColumnarNetworkConfig) (conns : Nat → Table) :
    ∀ steps l act i, i < steps →
      (forwardFrom cfg conns l steps act).getD (i + 1) [] =
        layerActs cfg ((forwardFrom cfg conns l steps act).getD i [])
          (conns (l + i)) := by
  intro steps
  induction steps with
  | zero => intro l act i hi; omega
  | succ steps ih =>
      intro l act i hi
      cases i with
      | zero =>
          simp only [forwardFrom, List.getD_cons_succ, List.getD_cons_zero,
            forwardFrom_getD_zero, Nat.add_zero]
      | succ i =>
          have hi' : i < steps := by omega
          simp only [forwardFrom, List.getD_cons_succ]
          rw [ih (l + 1) _ i hi']
          have : l + 1 + i = l + (i + 1) := by omega
          rw [this]

lemma layerActs_length (cfg : ColumnarNetworkConfig) (prev : List Bool)
    (tab : Table) :
    (layerActs cfg prev tab).length =
      cfg.num_columns * cfg.num_types * cfg.num_branches := by
  unfold layerActs
  rw [List.length_map, List.length_range]

lemma layerActs_getD (cfg : ColumnarNetworkConfig) (prev : List Bool)
    (tab : Table) (c t b : Nat) (hc : c < cfg.num_columns)
    (ht : t < cfg.num_types) (hb : b < cfg.num_branches) :
    (layerActs cfg prev tab).getD
        ((c * cfg.num_types + t) * cfg.num_branches + b) false =
      branchOn cfg prev tab c t b := by
  have hct : c * cfg.num_types + t < cfg.num_columns * cfg.num_types := by
    calc c * cfg.num_types + t < c * cfg.num_types + cfg.num_types :=
          Nat.add_lt_add_left ht _
      _ = (c + 1) * cfg.num_types := by ring
      _ ≤ cfg.num_columns * cfg.num_types := Nat.mul_le_mul_right _ hc
  have hj : (c * cfg.num_types + t) * cfg.num_branches + b <
      cfg.num_columns * cfg.num_types * cfg.num_branches := by
    calc (c * cfg.num_types + t) * cfg.num_branches + b
        < (c * cfg.num_types + t) * cfg.num_branches + cfg.num_branches :=
          Nat.add_lt_add_left hb _
      _ = (c * cfg.num_types + t + 1) * cfg.num_branches := by ring
      _ ≤ cfg.num_columns * cfg.num_types * cfg.num_branches :=
          Nat.mul_le_mul_right _ hct
  rw [layerActs, List.getD_eq_getElem?_getD, List.getElem?_map,
    List.getElem?_range hj]
  simp only [Option.map_some', Option.getD_some]
  have hBr : 0 < cfg.num_branches := Nat.zero_lt_of_lt hb
  have hmod : ((c * cfg.num_types + t) * cfg.num_branches + b) %
      cfg.num_branches = b := by
    rw [Nat.add_comm, Nat.add_mul_mod_self_right, Nat.mod_eq_of_lt hb]
  have hdiv : ((c * cfg.num_types + t) * cfg.num_branches + b) /
      cfg.num_branches = c * cfg.num_types + t := by
    rw [Nat.add_comm, Nat.add_mul_div_right _ _ hBr, Nat.div_eq_of_lt hb,
      Nat.zero_add]
  have hdivmod : ((c * cfg.num_types + t) * cfg.num_branches + b) /
      cfg.num_branches % cfg.num_types = t := by
    rw [hdiv, Nat.add_comm, Nat.add_mul_mod_self_right, Nat.mod_eq_of_lt ht]
  have hTBr : 0 < cfg.num_types * cfg.num_branches :=
    Nat.mul_pos (Nat.zero_lt_of_lt ht) hBr
  have hdiv2 : ((c * cfg.num_types + t) * cfg.num_branches + b) /
      (cfg.num_types * cfg.num_branches) = c := by
    have hrepr : (c * cfg.num_types + t) * cfg.num_branches + b =
        c * (cfg.num_types * cfg.num_branches) +
          (t * cfg.num_branches + b) := by ring
    have hrem : t * cfg.num_branches + b < cfg.num_types * cfg.num_branches := by
      calc t * cfg.num_branches + b < t * cfg.num_branches + cfg.num_branches :=
            Nat.add_lt_add_left hb _
        _ = (t + 1) * cfg.num_branches := by ring
        _ ≤ cfg.num_types * cfg.num_branches := Nat.mul_le_mul_right _ ht
    rw [hrepr, Nat.add_comm, Nat.add_mul_div_right _ _ hTBr,
      Nat.div_eq_of_lt hrem, Nat.zero_add]
  rw [hmod, hdivmod, hdiv2]

/-- Sparse 3-layer configuration with two branches, used to exhibit the
flattened-activation length at inner layer boundaries. -/
def cfgBr2 : ColumnarNetworkConfig :=
  { num_layers := 3, num_columns := 1, num_types := 1, num_branches := 2,
    num_segments := 1, num_synapses := 1, input_size := 1,
    seg_threshold := 1, branch_threshold := 1 }

/-- C3 counterexample: in a 3-layer network with 2 branches, the trace
entry for layer 1 — the flattened previous activation consumed at layer
boundary 2 — has length Columns*Types*Branches = 2, not Columns*Types
= 1 as the claim states. -/
theorem c3_counterexample :
    ¬ ((forwardTrace cfgBr2 (initConns cfgBr2) [true]).getD 1 []).length =
      cfgBr2.num_columns * cfgBr2.num_types := by
  decide

/-- All cells of a table family are in sparse form (true of every
network allocated with `use_sparse_matrix`). -/
def SparseConns (conns : Nat → Table) : Prop :=
  ∀ j c t b s, ∃ idxs, conns j c t b s = Cell.sparse idxs

/-- C3 (amended): the connectivity table count is num_layers − 1 and the
`prev_size` the constructor computes is input_size for layer 1 and
Columns*Types for layers ≥ 2; for the sparse storage form, every forward
pass produces a trace whose entry 0 is the input and whose entry for
each layer i ≥ 1 is the flattened Column*Type*Branch branch-level
activation of layer i, so the flattened previous activation consumed at
each layer boundary ≥ 2 has length Columns*Types*Branches (not
Columns*Types: the constructor's `prev_size` disagrees with the
activation actually consumed there). -/
theorem c3_tables_and_trace (cfg : ColumnarNetworkConfig)
    (conns : Nat → Table) (x : List Bool)
    (hL : 1 ≤ cfg.num_layers) (hsp : SparseConns conns) :
    (initTables cfg).length = cfg.num_layers - 1
    ∧ prevSizeCode cfg 1 = cfg.input_size
    ∧ (∀ l, 2 ≤ l → prevSizeCode cfg l = cfg.num_columns * cfg.num_types)
    ∧ (forwardTrace cfg conns x).length = cfg.num_layers
    ∧ (forwardTrace cfg conns x).getD 0 [] = x
    ∧ ∀ i, i < cfg.num_layers - 1 →
        (forwardTrace cfg conns x).getD (i + 1) [] =
          layerActs cfg ((forwardTrace cfg conns x).getD i []) (conns i)
        ∧ ((forwardTrace cfg conns x).getD (i + 1) []).length =
            cfg.num_columns * cfg.num_types * cfg.num_branches
        ∧ ∀ c t b, c < cfg.num_columns → t < cfg.num_types →
            b < cfg.num_branches →
            ((forwardTrace cfg conns x).getD (i + 1) []).getD
                ((c * cfg.num_types + t) * cfg.num_branches + b) false =
              branchOn cfg ((forwardTrace cfg conns x).getD i [])
                (conns i) c t b := by
  refine ⟨?_, ?_, ?_, ?_, ?_, ?_⟩
  · unfold initTables
    rw [List.length_map, List.length_range]
  · rfl
  · intro l hl
    unfold prevSizeCode
    rw [if_neg (by omega)]
  · unfold forwardTrace
    rw [forwardFrom_length]
    omega
  · exact forwardFrom_getD_zero cfg conns _ 0 x
  · intro i hi
    have hstep : (forwardTrace cfg conns x).getD (i + 1) [] =
        layerActs cfg ((forwardTrace cfg conns x).getD i []) (conns i) := by
      unfold forwardTrace
      rw [forwardFrom_getD_succ cfg conns _ 0 x i hi, Nat.zero_add]
    refine ⟨hstep, ?_, ?_⟩
    · rw [hstep, layerActs_length]
    · intro c t b hc ht hb
      rw [hstep]
      exact layerActs_getD cfg _ (conns i) c t b hc ht hb

/-- C3 witness: the amended statement at a concrete sparse network and
input. -/
theorem c3_tables_and_trace_witness :
    (forwardTrace cfgA (initConns cfgA) [true, true]).length =
      cfgA.num_layers := by
  exact (c3_tables_and_trace cfgA (initConns cfgA) [true, true]
    (by decide) (fun j c t b s => ⟨List.replicate 2 (-1), rfl⟩)).2.2.2.1

/-- Well-formedness of one cell with respect to the flattened length of
the previous-layer activation: every sparse slot is the sentinel or a
valid index below the bound. -/
def WfCell (bound : Nat) : Cell → Prop
  | Cell.sparse idxs => ∀ i ∈ idxs, i = -1 ∨ (0 ≤ i ∧ i.toNat < bound)
  | Cell.dense _ => True

/-- Well-formedness of a network state: every cell of table j is
well-formed for the flattened activation consumed at boundary j+1. -/
def WfState (cfg : ColumnarNetworkConfig) (st : NetState) : Prop :=
  ∀ j c t b s, WfCell (prevFlatLen cfg (j + 1)) (st.conns j c t b s)

lemma activePool_lt (v : List Bool) : ∀ i ∈ activePool v, i < v.length := by
  intro i hi
  simp only [activePool, List.mem_filter, List.mem_range] at hi
  exact hi.1

lemma inactivePool_lt (v : List Bool) : ∀ i ∈ inactivePool v, i < v.length := by
  intro i hi
  simp only [inactivePool, List.mem_filter, List.mem_range] at hi
  exact hi.1

lemma fallbackPool_lt (total : Nat) (act : List Nat) :
    ∀ i ∈ fallbackPool total act, i < total := by
  intro i hi
  simp only [fallbackPool, List.mem_filter, List.mem_range] at hi
  exact hi.1

lemma torchCopy1d_mem (dst src out : List Int)
    (h : torchCopy1d dst src = some out) : ∀ i ∈ out, i ∈ src := by
  unfold torchCopy1d at h
  split at h
  · simp only [Option.some.injEq] at h
    rw [← h]
    exact fun i hi => hi
  · match src, h with
    | [v], h =>
        simp only [Option.some.injEq] at h
        rw [← h]
        intro i hi
        rw [List.eq_of_mem_replicate hi]
        exact List.mem_singleton_self v

lemma wireStep_wf (cfg : ColumnarNetworkConfig) (rng : Nat → Nat)
    (col l : Nat) (aP iP : List Nat) (tot typ : Nat) (sk sk' : NetState × Nat)
    (hl : 1 ≤ l)
    (haP : ∀ v ∈ aP, v < prevFlatLen cfg l)
    (hiP : ∀ v ∈ iP, v < prevFlatLen cfg l)
    (htot : tot ≤ prevFlatLen cfg l)
    (h : wireStep cfg rng col l aP iP tot typ sk = some sk')
    (hwf : WfState cfg sk.1) : WfState cfg sk'.1 := by
  obtain ⟨_, hcn⟩ := wireStep_cases cfg rng col l aP iP tot typ sk sk' h
  rcases hcn with hcn | ⟨b, s, chosen, cell, _, ⟨pool, hpool, _, hchosen⟩, hw, hcn⟩
  · intro j c t b s
    rw [hcn]
    exact hwf j c t b s
  · have hpool_lt : ∀ v ∈ pool, v < prevFlatLen cfg l := by
      rcases hpool with rfl | rfl | rfl
      · exact haP
      · exact hiP
      · intro v hv
        exact Nat.lt_of_lt_of_le (fallbackPool_lt tot aP v hv) htot
    have hcell : WfCell (prevFlatLen cfg l) cell := by
      cases hcold : sk.1.conns (l - 1) col typ b s with
      | sparse idxs =>
          rw [hcold] at hw
          simp only [wireWrite] at hw
          cases hcopy : torchCopy1d idxs (chosen.map Int.ofNat) with
          | none => rw [hcopy] at hw; exact absurd hw (by simp)
          | some out =>
              rw [hcopy] at hw
              simp only [Option.map_some', Option.some.injEq] at hw
              rw [← hw]
              intro i hi
              have hisrc := torchCopy1d_mem idxs (chosen.map Int.ofNat) out hcopy i hi
              simp only [List.mem_map] at hisrc
              obtain ⟨v, hv, rfl⟩ := hisrc
              right
              refine ⟨Int.ofNat_nonneg v, ?_⟩
              have : (Int.ofNat v).toNat = v := Int.toNat_natCast v
              rw [this]
              exact hpool_lt v (hchosen v hv)
      | dense mask =>
          rw [hcold] at hw
          simp only [wireWrite] at hw
          cases hfill : torchIndexFill mask chosen with
          | none => rw [hfill] at hw; exact absurd hw (by simp)
          | some out =>
              rw [hfill] at hw
              simp only [Option.map_some', Option.some.injEq] at hw
              rw [← hw]
              trivial
    intro j c t b' s'
    rw [hcn]
    unfold updateAt
    by_cases hj : j = l - 1
    · rw [if_pos hj, hj]
      unfold setCell
      split
      · have hl1 : l - 1 + 1 = l := by omega
        rw [hl1]
        exact hcell
      · have := hwf (l - 1) c t b' s'
        exact this
    · rw [if_neg hj]
      exact hwf j c t b' s'

lemma trace_entry_len (cfg : ColumnarNetworkConfig) (conns : Nat → Table)
    (x : List Bool) (hx : x.length = cfg.input_size) (l : Nat)
    (h1 : 1 ≤ l) (h2 : l ≤ cfg.num_layers - 1) :
    ((forwardTrace cfg conns x).getD (l - 1) []).length = prevFlatLen cfg l := by
  by_cases hl1 : l = 1
  · rw [hl1]
    unfold forwardTrace
    rw [forwardFrom_getD_zero]
    unfold prevFlatLen
    rw [if_pos rfl]
    exact hx
  · have hi : l - 2 < cfg.num_layers - 1 := by omega
    have hrepr : l - 1 = (l - 2) + 1 := by omega
    unfold forwardTrace
    rw [hrepr, forwardFrom_getD_succ cfg conns _ 0 x (l - 2) hi, layerActs_length]
    unfold prevFlatLen
    rw [if_neg hl1]

/-- C10: whenever `train_sample` completes on a well-formed network
state whose input has the configured length, every non-sentinel index
stored in any sparse synapse slot of table j lies in [0, N) where N is
the flattened length of the activation consumed at boundary j+1
(input_size for layer 1 and Columns*Types*Branches thereafter) — so the
index gather of `_forward_sparse` on wired slots never reads out of
bounds. -/
theorem c10_written_indices_in_range (cfg : ColumnarNetworkConfig)
    (rng : Nat → Nat) (st : NetState) (x : List Bool) (col : Nat)
    (st' : NetState) (hx : x.length = cfg.input_size)
    (hwf : WfState cfg st)
    (h : trainSample cfg rng st x col = some st') : WfState cfg st' := by
  refine trainSample_pres cfg rng st x col st'
    (fun a b => WfState cfg a → WfState cfg b) (fun s w => w)
    (fun a b c hab hbc w => hbc (hab w)) ?_ h hwf
  intro l h1 h2 typ sk sk' hs w
  have hlen : ((forwardTrace cfg st.conns x).getD (l - 1) []).length =
      prevFlatLen cfg l := trace_entry_len cfg st.conns x hx l h1 h2
  refine wireStep_wf cfg rng col l _ _ _ typ sk sk' h1 ?_ ?_ ?_ hs w
  · intro v hv
    rw [← hlen]
    exact activePool_lt _ v hv
  · intro v hv
    rw [← hlen]
    exact inactivePool_lt _ v hv
  · rw [← hlen]

/-- C10 witness: a completed concrete training call keeps the fresh
network state well-formed. -/
theorem c10_written_indices_in_range_witness :
    (trainSample cfgA rngZero (initState cfgA) [true, true] 0).isSome = true ∧
    WfState cfgA ((trainSample cfgA rngZero (initState cfgA) [true, true] 0).getD
      (initState cfgA)) := by
  have hwf0 : WfState cfgA (initState cfgA) := by
    intro j c t b s
    show ∀ i ∈ List.replicate cfgA.num_synapses (-1 : Int),
      i = -1 ∨ (0 ≤ i ∧ i.toNat < prevFlatLen cfgA (j + 1))
    intro i hi
    left
    exact List.eq_of_mem_replicate hi
  refine ⟨rfl, ?_⟩
  cases h : trainSample cfgA rngZero (initState cfgA) [true, true] 0 with
  | none => exact hwf0
  | some st' =>
      simp only [Option.getD_some]
      exact c10_written_indices_in_range cfgA rngZero (initState cfgA)
        [true, true] 0 st' rfl hwf0 h

/-- Valid configuration (construction succeeds) with the sparse storage
form and 1 < trainI < num_synapses. -/
def cfgTrainI2 : ColumnarNetworkConfig :=
  { num_layers := 2, num_columns := 1, num_types := 1, num_branches := 1,
    num_segments := 1, num_synapses := 3, input_size := 2,
    seg_threshold := 1, branch_threshold := 1, trainI := some 2 }

/-- C4: evaluation at the failing input.  The configuration
`cfgTrainI2` (sparse form, num_synapses = 3, trainI = 2) passes
construction, but the wiring step's slice assignment
`seg[:] = torch.tensor(chosen)` cannot broadcast the length-2 sampled
index list into the length-3 slot vector: the modelled torch copy
yields `none` and the whole `train_sample` call aborts instead of
writing the two sampled indices into the segment's synapse slots. -/
theorem c4_sparse_write_fails :
    postInitOk cfgTrainI2 = true ∧
    torchCopy1d [-1, -1, -1] [0, 1] = none ∧
    trainSample cfgTrainI2 rngZero (initState cfgTrainI2) [true, true] 0
      = none := by
  exact ⟨rfl, rfl, rfl⟩

end ColumnarEI
